import Mathlib

/-!
Verification of the regression-report renderer (`src/App.tsx`).

The component has three computational pieces:
* `fmt` — numeric formatting: `Math.abs(x) < 1e-12 ? '0' : x.toFixed(6).replace(/\.?0+$/, '')`;
* `explain` — decoding of a 2–3 character significance code into a sentence;
* `RegressionReport` — the table-per-operation report view.

Numbers are modelled as exact rationals (`ℚ`).  `Number.prototype.toFixed(6)`
(for values below the exponential-notation threshold) is modelled by rounding
`|x| * 10^6` half-up to an integer and printing it with six fixed decimal
digits, which is exactly the ECMAScript algorithm applied to the receiver's
exact value.  The regex replace and `parseFloat` are modelled on lists of
characters.
-/

/-- Decimal digit character for a value `0 ≤ d ≤ 9` (values above nine clamp to `'9'`;
they never arise). -/
def digitChar : Nat → Char
  | 0 => '0'
  | 1 => '1'
  | 2 => '2'
  | 3 => '3'
  | 4 => '4'
  | 5 => '5'
  | 6 => '6'
  | 7 => '7'
  | 8 => '8'
  | _ => '9'

/-- Decimal digits of `n`, most significant first, no leading zeros (except for `n = 0`,
which prints as `"0"`). -/
def natDigits (n : Nat) : List Char :=
  if n < 10 then [digitChar n]
  else natDigits (n / 10) ++ [digitChar (n % 10)]
termination_by n
decreasing_by omega

/-- The last `w` decimal digits of `n`, most significant first, zero-padded to width `w`. -/
def fixedDigits (n : Nat) : Nat → List Char
  | 0 => []
  | w + 1 => fixedDigits (n / 10) w ++ [digitChar (n % 10)]

/-- The integer a nonnegative value rounds to under `toFixed(6)`: the nearest integer
to `y * 10^6`, ties going up (the ECMAScript "pick the larger n" rule). -/
def jsRound6 (y : ℚ) : Nat := (⌊y * 1000000 + 1 / 2⌋).toNat

/-- Model of `x.toFixed(6)` as a character list: optional sign, then the digits of the
integer part, a dot, and six fractional digits. -/
def toFixed6 (x : ℚ) : List Char :=
  (if x < 0 then ['-'] else []) ++
    natDigits (jsRound6 |x| / 1000000) ++ '.' :: fixedDigits (jsRound6 |x|) 6

/-- Model of `.replace(/\.?0+$/, '')`: when the string ends in `'0'`, remove the maximal
trailing run of zeros together with a single `'.'` immediately preceding the run, if any;
otherwise the regex does not match and the string is unchanged. -/
def stripFixedZeros (cs : List Char) : List Char :=
  let r := cs.reverse
  if r.head? = some '0' then
    let r2 := r.dropWhile (fun c => c == '0')
    (if r2.head? = some '.' then r2.tail else r2).reverse
  else cs

/-- Model of `fmt` from `App.tsx`:
`Math.abs(x) < 1e-12 ? '0' : x.toFixed(6).replace(/\.?0+$/, '')`. -/
def fmt (x : ℚ) : String :=
  if |x| < 1 / 10 ^ 12 then "0" else String.mk (stripFixedZeros (toFixed6 x))

/-- Value of a list of decimal digit characters, most significant first. -/
def parseNatCh (cs : List Char) : Nat :=
  cs.foldl (fun a c => 10 * a + (c.toNat - 48)) 0

/-- Model of decimal parsing (`parseFloat`) for plain `[-]ddd[.ddd]` strings: an optional
leading minus, an integer part up to the dot, and a fractional part after it. -/
def parseDec (s : String) : ℚ :=
  let cs := s.toList
  let sgn : ℚ := if cs.head? = some '-' then -1 else 1
  let cs2 := if cs.head? = some '-' then cs.tail else cs
  let ip := cs2.takeWhile (fun c => c != '.')
  let fp := (cs2.dropWhile (fun c => c != '.')).tail
  sgn * ((parseNatCh ip : ℚ) + (parseNatCh fp : ℚ) / 10 ^ fp.length)

/-- Model of `explain` from `App.tsx`.  JavaScript indexing out of range yields
`undefined`, which compares unequal to `'+'`; this is modelled by optional indexing. -/
def explain (code : String) : String :=
  let cs := code.toList
  let p0 : List String :=
    if cs.head? = some '*' then [("старший коэффициент < 0")] else []
  let rest := if cs.head? = some '*' then cs.tail else cs
  let p1 := if rest[0]? = some '+' then ("значимо лучше при α=0.05") else ("не лучше при α=0.05")
  let p2 := if rest[1]? = some '+' then ("значимо лучше при α=0.01") else ("не лучше при α=0.01")
  String.intercalate (", ") (p0 ++ [p1, p2])

/-- The α=0.05 phrase chosen by `explain` for a significance character. -/
def phrase05 (c : Char) : String :=
  if c = '+' then ("значимо лучше при α=0.05") else ("не лучше при α=0.05")

/-- The α=0.01 phrase chosen by `explain` for a significance character. -/
def phrase01 (c : Char) : String :=
  if c = '+' then ("значимо лучше при α=0.01") else ("не лучше при α=0.01")

/-- Whether a character is one of the two significance markers `'+'` / `'-'`. -/
def isSig (c : Char) : Bool := c == '+' || c == '-'

/-- Decidable form of the spec's code invariant: the string matches `[*]?[+-][+-]`. -/
def codeInv (s : String) : Bool :=
  match s.toList with
  | [a, b] => isSig a && isSig b
  | ['*', a, b] => isSig a && isSig b
  | _ => false

/-- Canonical code equivalent to an arbitrary input string under `explain`: the optional
leading star, then `'+'` where the corresponding significance position holds `'+'` and
`'-'` everywhere else (including missing positions). -/
def canonCode (code : String) : String :=
  let cs := code.toList
  let rest := if cs.head? = some '*' then cs.tail else cs
  String.mk ((if cs.head? = some '*' then ['*'] else []) ++
    [if rest[0]? = some '+' then '+' else '-',
     if rest[1]? = some '+' then '+' else '-'])

/-- Model of the `Model` interface: one fitted polynomial model row. -/
structure Model where
  degree : Nat
  coef : List ℚ
  var : ℚ
  sd : ℚ
  code : String
  comment : Option String

/-- Model of the `OperationInfo` interface: the models of one operation and its chart file. -/
structure OperationInfo where
  models : List Model
  image : String

/-- Model of `ReportData = Record<string, OperationInfo>` as an insertion-ordered mapping
(a type alias, as in the source). -/
abbrev ReportData := List (String × OperationInfo)

/-- Minimal DOM tree: an element with tag, attributes and children, or a text node. -/
inductive Node where
  | elem (tag : String) (attrs : List (String × String)) (children : List Node)
  | text (s : String)

/-- Children of a node (`[]` for text nodes). -/
def Node.children : Node → List Node
  | .elem _ _ cs => cs
  | .text _ => []

/-- A table cell holding a string. -/
def renderCell (s : String) : Node := .elem ("td") [] [.text s]

/-- Model of `m.comment || ' '`: JavaScript `||` falls through to the non-breaking
space both for a missing comment and for an empty one. -/
def commentText : Option String → String
  | some s => if s = "" then " " else s
  | none => " "

/-- One body row of a model table: the `rep-row-even` class exactly on rows with odd
zero-based index (`idx % 2 ? CLS.tbodyEven : undefined`), then one cell for the degree,
one per coefficient, and the variance / sd / code / explanation / comment cells. -/
def renderRow (idx : Nat) (m : Model) : Node :=
  .elem ("tr") (if idx % 2 = 1 then [("class", "rep-row-even")] else [])
    ([renderCell (toString m.degree)]
      ++ m.coef.map (fun c => renderCell (fmt c))
      ++ [renderCell (fmt m.var), renderCell (fmt m.sd), renderCell m.code,
          renderCell (explain m.code), renderCell (commentText m.comment)])

/-- The fixed header row of every table: `deg`, the five coefficient slots, and the
metric columns. -/
def headerRow : Node :=
  .elem ("tr") []
    [.elem ("th") [] [.text ("deg")], .elem ("th") [] [.text ("a0")],
     .elem ("th") [] [.text ("a1")], .elem ("th") [] [.text ("a2")],
     .elem ("th") [] [.text ("a3")], .elem ("th") [] [.text ("a4")],
     .elem ("th") [] [.text ("D[X]")], .elem ("th") [] [.text ("СКО")],
     .elem ("th") [] [.text ("Код")], .elem ("th") [] [.text ("Пояснение")],
     .elem ("th") [] [.text ("Комментарий")]]

/-- One operation's table: header plus one body row per model, in order. -/
def renderTable (models : List Model) : Node :=
  .elem ("table") [("class", "rep-table")]
    [.elem ("thead") [("class", "rep-thead")] [headerRow],
     .elem ("tbody") [] (models.enum.map (fun p => renderRow p.1 p.2))]

/-- One operation's fragment: caption, table, and the chart image wrapped in a styled
paragraph (the `new URL('./assets/...', import.meta.url)` resolution is modelled as
path concatenation). -/
def renderOperation (op : String) (info : OperationInfo) : List Node :=
  [.elem ("div") [("class", "rep-caption")] [.text (("Операция: ") ++ op)],
   renderTable info.models,
   .elem ("p") []
     [.elem ("img") [("class", "rep-img"), ("src", ("./assets/") ++ info.image),
                     ("alt", ("график ") ++ op)] []]]

/-- The `Intro` component: method explanation and glossary.  Inline formatting elements
(`em`, `sub`, `sup`, `b`) are flattened into the surrounding text; no table, caption or
image occurs here. -/
def introSections : List Node :=
  [.elem ("section") [("class", "rep-section")]
    [.elem ("h2") [] [.text ("Как работает полиномиальная регрессия")],
     .elem ("p") [] [.text ("Время y аппроксимируется полиномом степени k от размера данных n:")],
     .elem ("p") [] [.elem ("code") [] [.text ("y = a0 + a1 n + … + ak n^k")], .text (".")],
     .elem ("p") []
       [.text ("Коэффициенты a_i находятся методом "),
        .elem ("abbr") [] [.text ("OLS")],
        .text (", минимизирующим сумму квадратов остатков resid. F-тест проверяет, улучшает ли добавление нового члена точность модели.")],
     .elem ("p") [] [.text ("Если относительный вес старшего коэффициента |ak| / max i<k |ai| < 2 %, член считается фиктивным и отмечается в таблицах.")]],
   .elem ("section") [("class", "rep-section")]
    [.elem ("h2") [] [.text ("Справочник терминов")],
     .elem ("ul") []
       [.elem ("li") [] [.text ("Residual (resid) — разница между фактом и прогнозом.")],
        .elem ("li") [] [.text ("RSS — сумма квадратов resid.")],
        .elem ("li") [] [.text ("σ² (D[X]) — оценка дисперсии: RSS / (N − k − 1).")],
        .elem ("li") [] [.text ("СКО — стандартное отклонение = √σ².")],
        .elem ("li") [] [.text ("F-тест — проверка статистической значимости нового члена.")]]]]

/-- The report container `<div className='rep-body'>`: title, intro, then one fragment
per operation in the order of the mapping. -/
def renderReport (d : ReportData) : Node :=
  .elem ("div") [("class", "rep-body")]
    (.elem ("h1") [("class", "rep-title")] [.text ("Отчёт регрессионного анализа")]
      :: introSections
      ++ (d.map (fun p => renderOperation p.1 p.2)).flatten)

/-- The full component output: the download button followed by the report container. -/
def regressionReport (d : ReportData) : List Node :=
  [.elem ("button") [] [.text ("Download PDF")], renderReport d]

/-- Number of elements with the given tag anywhere in a forest, in document order. -/
def countTagList (t : String) : List Node → Nat
  | [] => 0
  | .text _ :: ns => countTagList t ns
  | .elem tag _ cs :: ns =>
      (if tag = t then 1 else 0) + countTagList t cs + countTagList t ns

/-- Concatenation of the immediate text children of a node list. -/
def immText : List Node → String
  | [] => ""
  | .text s :: ns => s ++ immText ns
  | .elem _ _ _ :: ns => immText ns

/-- Deep in-order collection over a forest: `sel` is applied to every node, children
before following siblings. -/
def collectL {β : Type} (sel : Node → List β) : List Node → List β
  | [] => []
  | .text s :: ns => sel (.text s) ++ collectL sel ns
  | .elem tag a cs :: ns =>
      sel (.elem tag a cs) ++ collectL sel cs ++ collectL sel ns

/-- Selector for caption texts: the immediate text of every `rep-caption` element. -/
def capSel : Node → List String
  | .elem _ attrs cs => if ("class", "rep-caption") ∈ attrs then [immText cs] else []
  | .text _ => []

/-- Selector for table nodes. -/
def tabSel : Node → List Node
  | .elem ("table") a cs => [.elem ("table") a cs]
  | _ => []

/-- Selector for image sources: the `src` attribute values of `img` elements. -/
def imgSel : Node → List String
  | .elem ("img") attrs _ => (attrs.filter (fun p => p.1 == "src")).map (fun p => p.2)
  | _ => []

/-- Whether a node carries the given `class` attribute value. -/
def hasCls (c : String) : Node → Bool
  | .elem _ attrs _ => attrs.contains (("class"), c)
  | .text _ => false

/-- The body rows of a rendered table (the children of its `tbody`). -/
def tbodyRows : Node → List Node
  | .elem ("table") _ [_, .elem ("tbody") _ rows] => rows
  | _ => []

/-- The fixed configuration object passed to the PDF converter in `downloadPdf`,
as a function of the rendered element's natural (scroll) width. -/
structure PdfConfig where
  margin : List ℚ
  filename : String
  imageType : String
  imageQuality : ℚ
  canvasScale : ℚ
  canvasWidth : Nat
  unit : String
  format : String
  orientation : String
  pagebreakMode : List String
  pagebreakAvoid : List String

/-- The options value built by `downloadPdf` for a report element of scroll width `w`. -/
def downloadPdfOpt (w : Nat) : PdfConfig :=
  { margin := [10, 10, 10, 10]
    filename := ("regression.pdf")
    imageType := ("jpeg")
    imageQuality := 98 / 100
    canvasScale := 1
    canvasWidth := w
    unit := ("mm")
    format := ("a4")
    orientation := ("portrait")
    pagebreakMode := [("avoid-all"), ("css")]
    pagebreakAvoid := [(".rep-table"), (".rep-img")] }

theorem toListMk (l : List Char) : (String.mk l).toList = l := rfl

/-- C1 counterexample: `explain "++"` is not the English sentence the spec states; the
source emits Russian phrases. -/
theorem explain_english_counterexample :
    explain ("++") ≠ ("significant at α=0.05, significant at α=0.01") := by
  decide

/-- C1 (amended): for the example inputs, `explain` returns exactly the sentences the
source builds — the same structure as the spec's examples but with the Russian phrases
of `App.tsx`. -/
theorem explain_examples :
    explain ("++") = ("значимо лучше при α=0.05, значимо лучше при α=0.01")
      ∧ explain ("+-") = ("значимо лучше при α=0.05, не лучше при α=0.01")
      ∧ explain ("*-+") = ("старший коэффициент < 0, не лучше при α=0.05, значимо лучше при α=0.01") := by
  refine ⟨by decide, by decide, by decide⟩

/-- C5: for every code matching `[*]?[+-][+-]`, `explain` emits the leading-coefficient
phrase exactly when the code starts with `'*'`, then the α=0.05 phrase chosen by the
first remaining character and the α=0.01 phrase chosen by the second, joined by `", "`;
the result contains two comma separators in the starred form and one otherwise. -/
theorem explain_code_structure (c1 c2 : Char) (h1 : c1 = '+' ∨ c1 = '-')
    (h2 : c2 = '+' ∨ c2 = '-') :
    explain (String.mk ['*', c1, c2])
        = ("старший коэффициент < 0") ++ (", ") ++ phrase05 c1 ++ (", ") ++ phrase01 c2
      ∧ explain (String.mk [c1, c2]) = phrase05 c1 ++ (", ") ++ phrase01 c2
      ∧ (explain (String.mk ['*', c1, c2])).toList.count ',' = 2
      ∧ (explain (String.mk [c1, c2])).toList.count ',' = 1 := by
  rcases h1 with rfl | rfl <;> rcases h2 with rfl | rfl <;>
    exact ⟨by decide, by decide, by decide, by decide⟩

theorem explain_code_structure_witness :
    (('+' = '+' ∨ '+' = '-') ∧ ('-' = '+' ∨ '-' = '-'))
      ∧ (explain (String.mk ['*', '+', '-'])
            = ("старший коэффициент < 0") ++ (", ") ++ phrase05 '+' ++ (", ") ++ phrase01 '-'
          ∧ explain (String.mk ['+', '-']) = phrase05 '+' ++ (", ") ++ phrase01 '-'
          ∧ (explain (String.mk ['*', '+', '-'])).toList.count ',' = 2
          ∧ (explain (String.mk ['+', '-'])).toList.count ',' = 1) :=
  ⟨⟨Or.inl rfl, Or.inr rfl⟩, explain_code_structure '+' '-' (Or.inl rfl) (Or.inr rfl)⟩

/-- C9: `explain` is total on all strings: every input behaves exactly like its
canonicalized `[*]?[+-][+-]` code, in which every missing or non-`'+'` significance
position is replaced by `'-'`; in particular the empty string and a lone `"*"` produce
the two (respectively three) "not better" phrases. -/
theorem explain_total_canon :
    (∀ s : String, explain s = explain (canonCode s))
      ∧ (∀ s : String, codeInv (canonCode s) = true)
      ∧ explain ("") = ("не лучше при α=0.05, не лучше при α=0.01")
      ∧ explain ("*") = ("старший коэффициент < 0, не лучше при α=0.05, не лучше при α=0.01") := by
  refine ⟨?_, ?_, by decide, by decide⟩
  · intro s
    by_cases h : s.data.head? = some '*'
    · by_cases h0 : s.data.tail[0]? = some '+' <;>
        by_cases h1 : s.data.tail[1]? = some '+' <;>
        simp [explain, canonCode, String.toList, toListMk, h, h0, h1]
    · by_cases h0 : s.data[0]? = some '+' <;>
        by_cases h1 : s.data[1]? = some '+' <;>
        simp [explain, canonCode, String.toList, toListMk, h, h0, h1]
  · intro s
    by_cases h : s.data.head? = some '*'
    · by_cases h0 : s.data.tail[0]? = some '+' <;>
        by_cases h1 : s.data.tail[1]? = some '+' <;>
        (simp [canonCode, codeInv, isSig, String.toList, toListMk, h, h0, h1]) <;> tauto
    · by_cases h0 : s.data[0]? = some '+' <;>
        by_cases h1 : s.data[1]? = some '+' <;>
        simp [canonCode, codeInv, isSig, String.toList, toListMk, h, h0, h1]

theorem digitChar_toNat (d : Nat) (h : d < 10) : (digitChar d).toNat = 48 + d := by
  interval_cases d <;> decide

theorem parseFoldl (l : List Char) (a : Nat) :
    l.foldl (fun a c => 10 * a + (c.toNat - 48)) a = a * 10 ^ l.length + parseNatCh l := by
  induction l generalizing a with
  | nil => simp [parseNatCh]
  | cons c l ih =>
    simp only [List.foldl_cons, List.length_cons, parseNatCh]
    rw [ih, ih (10 * 0 + (c.toNat - 48))]
    ring

theorem parseNatCh_append (l₁ l₂ : List Char) :
    parseNatCh (l₁ ++ l₂) = parseNatCh l₁ * 10 ^ l₂.length + parseNatCh l₂ := by
  unfold parseNatCh
  rw [List.foldl_append]
  exact parseFoldl l₂ _

theorem parseNatCh_natDigits (n : Nat) : parseNatCh (natDigits n) = n := by
  induction n using Nat.strong_induction_on with
  | _ n ih =>
    rw [natDigits]
    split
    · simp [parseNatCh, digitChar_toNat n (by omega)]
    · rw [parseNatCh_append, ih (n / 10) (by omega)]
      simp [parseNatCh, digitChar_toNat (n % 10) (by omega)]
      omega

theorem mem_natDigits (n : Nat) : ∀ c ∈ natDigits n, 48 ≤ c.toNat ∧ c.toNat ≤ 57 := by
  induction n using Nat.strong_induction_on with
  | _ n ih =>
    rw [natDigits]
    split
    · intro c hc
      simp at hc
      subst hc
      rw [digitChar_toNat n (by omega)]
      omega
    · intro c hc
      simp at hc
      rcases hc with hc | hc
      · exact ih (n / 10) (by omega) c hc
      · subst hc
        rw [digitChar_toNat (n % 10) (by omega)]
        omega

theorem natDigits_ne_nil (n : Nat) : natDigits n ≠ [] := by
  rw [natDigits]
  split <;> simp

theorem length_fixedDigits (n w : Nat) : (fixedDigits n w).length = w := by
  induction w generalizing n with
  | zero => rfl
  | succ w ih => simp [fixedDigits, ih]

theorem parseNatCh_fixedDigits (n w : Nat) : parseNatCh (fixedDigits n w) = n % 10 ^ w := by
  induction w generalizing n with
  | zero => simp [fixedDigits, parseNatCh, Nat.mod_one]
  | succ w ih =>
    rw [fixedDigits, parseNatCh_append, ih]
    simp [parseNatCh, digitChar_toNat (n % 10) (by omega)]
    rw [pow_succ, mul_comm (10 ^ w) 10, Nat.mod_mul]
    ring

theorem mem_fixedDigits (n w : Nat) : ∀ c ∈ fixedDigits n w, 48 ≤ c.toNat ∧ c.toNat ≤ 57 := by
  induction w generalizing n with
  | zero => simp [fixedDigits]
  | succ w ih =>
    intro c hc
    simp [fixedDigits] at hc
    rcases hc with hc | hc
    · exact ih (n / 10) c hc
    · subst hc
      rw [digitChar_toNat (n % 10) (by omega)]
      omega

theorem parseNatCh_replicate_zero (k : Nat) : parseNatCh (List.replicate k '0') = 0 := by
  induction k with
  | zero => rfl
  | succ k ih =>
    rw [List.replicate_succ, parseNatCh]
    simpa [parseNatCh] using ih

theorem dropWhileHeadNot {α : Type} (p : α → Bool) (l : List α) (c : α)
    (h : (l.dropWhile p).head? = some c) : p c = false := by
  induction l with
  | nil => simp [List.dropWhile] at h
  | cons a l ih =>
    rw [List.dropWhile_cons] at h
    by_cases hp : p a = true
    · exact ih (by simpa [hp] using h)
    · simp [hp] at h
      subst h
      simpa using hp

theorem getLastMem {α : Type} (l : List α) (c : α) (h : l.getLast? = some c) : c ∈ l := by
  induction l with
  | nil => simp at h
  | cons a l ih =>
    rcases l with _ | ⟨b, l'⟩
    · simp at h
      subst h
      simp
    · rw [List.getLast?_cons_cons] at h
      exact List.mem_cons_of_mem a (ih h)

/-- Decomposition of the regex strip on a list of the shape `pre ++ '.' :: F` (the shape
every `toFixed6` output has): the maximal trailing zero run of `F` is removed, and with it
the dot when the whole of `F` was zeros. -/
theorem stripFixedZeros_spec (pre F : List Char) (hF : '.' ∉ F) (hFne : F ≠ []) :
    stripFixedZeros (pre ++ '.' :: F)
        = (if (F.reverse.dropWhile (fun c => c == '0')) = [] then pre
           else pre ++ '.' :: (F.reverse.dropWhile (fun c => c == '0')).reverse)
      ∧ (∃ k, F = (F.reverse.dropWhile (fun c => c == '0')).reverse
              ++ List.replicate k '0')
      ∧ ∀ c, ((F.reverse.dropWhile (fun c => c == '0')).reverse).getLast? = some c →
          (c = '0' → False) ∧ c ∈ F := by
  set p : Char → Bool := fun c => c == '0' with hp
  set D := F.reverse.dropWhile p with hD
  set T := F.reverse.takeWhile p with hT
  have hTD : T ++ D = F.reverse := List.takeWhile_append_dropWhile p F.reverse
  have hTrep : T = List.replicate T.length '0' := by
    apply List.eq_replicate_of_mem
    intro b hb
    have := List.mem_takeWhile_imp hb
    simpa [hp] using this
  have hFdecomp : F = D.reverse ++ List.replicate T.length '0' := by
    have h1 : F = D.reverse ++ T.reverse := by
      have : (T ++ D).reverse = F.reverse.reverse := by rw [hTD]
      simpa using this.symm
    rw [h1]
    congr 1
    nth_rewrite 1 [hTrep]
    exact List.reverse_replicate _ _
  have hDmem : ∀ c ∈ D, c ∈ F := by
    intro c hc
    have : c ∈ F.reverse := (List.dropWhile_sublist p).mem hc
    simpa using this
  have hlast : ∀ c, D.reverse.getLast? = some c → (c = '0' → False) ∧ c ∈ F := by
    intro c hc
    rw [List.getLast?_reverse] at hc
    have hpc : p c = false := dropWhileHeadNot p F.reverse c hc
    refine ⟨fun h0 => by rw [h0] at hpc; simp [hp] at hpc, ?_⟩
    have : c ∈ D := by
      rcases D with _ | ⟨d, D'⟩
      · simp at hc
      · simp at hc
        simp [hc]
    exact hDmem c this
  refine ⟨?_, ⟨T.length, hFdecomp⟩, hlast⟩
  show stripFixedZeros (pre ++ '.' :: F) = _
  unfold stripFixedZeros
  have hrev : (pre ++ '.' :: F).reverse = F.reverse ++ '.' :: pre.reverse := by
    simp
  rw [hrev]
  by_cases hz : F.reverse.head? = some '0'
  · have hhead : (F.reverse ++ '.' :: pre.reverse).head? = some '0' := by
      rw [List.head?_append, hz]
      rfl
    rw [if_pos hhead]
    have hdw : (F.reverse ++ '.' :: pre.reverse).dropWhile p
        = if D.isEmpty then List.dropWhile p ('.' :: pre.reverse)
          else D ++ '.' :: pre.reverse := by
      rw [List.dropWhile_append]
    have hdots : List.dropWhile p ('.' :: pre.reverse) = '.' :: pre.reverse := by
      rw [List.dropWhile_cons]
      simp [hp]
    by_cases hDe : D = []
    · rw [if_pos hDe]
      rw [hdw, hdots]
      simp [hDe]
    · rw [if_neg hDe]
      rw [hdw]
      have : D.isEmpty = false := by simpa [List.isEmpty_iff] using hDe
      rw [this]
      simp only [Bool.false_eq_true, if_false]
      obtain ⟨d, D', hDd⟩ : ∃ d D', D = d :: D' := by
        rcases D with _ | ⟨d, D'⟩
        · exact absurd rfl hDe
        · exact ⟨d, D', rfl⟩
      have hdF : d ∈ F := hDmem d (by rw [hDd]; simp)
      have hdne : d ≠ '.' := fun h => hF (h ▸ hdF)
      rw [hDd]
      simp only [List.cons_append, List.head?_cons]
      rw [if_neg (by simp [hdne])]
      simp
  · have hhead : (F.reverse ++ '.' :: pre.reverse).head? ≠ some '0' := by
      rw [List.head?_append]
      obtain ⟨a, l', ha⟩ : ∃ a l', F.reverse = a :: l' := by
        rcases hFr : F.reverse with _ | ⟨a, l'⟩
        · exfalso; apply hFne; simpa using congrArg List.reverse hFr
        · exact ⟨a, l', rfl⟩
      rw [ha]
      simpa using fun h => hz (by rw [ha]; simp [h])
    rw [if_neg hhead]
    have hDF : D = F.reverse := by
      rw [hD]
      obtain ⟨a, l', ha⟩ : ∃ a l', F.reverse = a :: l' := by
        rcases hFr : F.reverse with _ | ⟨a, l'⟩
        · exfalso; apply hFne; simpa using congrArg List.reverse hFr
        · exact ⟨a, l', rfl⟩
      rw [ha, List.dropWhile_cons]
      have : p a = false := by
        have : a ≠ '0' := by
          intro h
          apply hz
          rw [ha, h]
          rfl
        simp [hp, this]
      simp [this]
    rw [if_neg (by rw [hDF]; intro h; apply hFne; simpa using congrArg List.reverse h)]
    rw [hDF]
    simp

/-- Case analysis of `fmt` away from the near-zero guard: the output is the sign-and-
integer-part prefix `pre`, followed (when the fraction did not strip away entirely) by a
dot and the fraction with its trailing zeros removed. -/
theorem fmt_cases (x : ℚ) (h : ¬ |x| < 1 / 10 ^ 12) :
    ∃ pre D : List Char,
      (fmt x).toList = (if D = [] then pre else pre ++ '.' :: D.reverse)
      ∧ pre = (if x < 0 then ['-'] else []) ++ natDigits (jsRound6 |x| / 1000000)
      ∧ (∃ k, fixedDigits (jsRound6 |x|) 6 = D.reverse ++ List.replicate k '0')
      ∧ (∀ c, D.reverse.getLast? = some c →
          (c = '0' → False) ∧ c ∈ fixedDigits (jsRound6 |x|) 6)
      ∧ '.' ∉ pre := by
  set n := jsRound6 |x| with hn
  set F := fixedDigits n 6 with hF
  set S := (if x < 0 then ['-'] else []) with hS
  set pre := S ++ natDigits (n / 1000000) with hpreEq
  have hFdot : '.' ∉ F := by
    intro hc
    obtain ⟨h1, _⟩ := mem_fixedDigits n 6 '.' hc
    exact absurd h1 (by decide)
  have hFne : F ≠ [] := by
    intro hF0
    have := length_fixedDigits n 6
    rw [hF] at hF0
    rw [hF0] at this
    simp at this
  have hpreDot : '.' ∉ pre := by
    intro hc
    rcases List.mem_append.mp hc with hc | hc
    · rw [hS] at hc
      split at hc
      · simp at hc
      · simp at hc
    · obtain ⟨h1, _⟩ := mem_natDigits _ '.' hc
      exact absurd h1 (by decide)
  have hto : toFixed6 x = pre ++ '.' :: F := by
    rw [hpreEq, hS, hF, hn]
    unfold toFixed6
    rw [List.append_assoc]
  obtain ⟨hstrip, hdec, hlast⟩ := stripFixedZeros_spec pre F hFdot hFne
  refine ⟨pre, F.reverse.dropWhile (fun c => c == '0'), ?_, hpreEq, hdec, hlast, hpreDot⟩
  unfold fmt
  rw [if_neg h, toListMk, hto, hstrip]

/-- On a dot-free list, `takeWhile (· != '.')` keeps everything and `dropWhile` drops
everything. -/
theorem noDotTakeDrop (l : List Char) (hl : ∀ c ∈ l, c ≠ '.') :
    l.takeWhile (fun c => c != '.') = l ∧ l.dropWhile (fun c => c != '.') = [] := by
  induction l with
  | nil => simp
  | cons a l ih =>
    have ha : a ≠ '.' := hl a (by simp)
    obtain ⟨ih1, ih2⟩ := ih (fun c hc => hl c (by simp [hc]))
    rw [List.takeWhile_cons, List.dropWhile_cons]
    simp [ha, ih1, ih2]

/-- Splitting a list at its first dot when the prefix is dot-free. -/
theorem dotSplitTakeDrop (l l' : List Char) (hl : ∀ c ∈ l, c ≠ '.') :
    (l ++ '.' :: l').takeWhile (fun c => c != '.') = l
      ∧ (l ++ '.' :: l').dropWhile (fun c => c != '.') = '.' :: l' := by
  induction l with
  | nil => simp [List.takeWhile_cons, List.dropWhile_cons]
  | cons a l ih =>
    have ha : a ≠ '.' := hl a (by simp)
    obtain ⟨ih1, ih2⟩ := ih (fun c hc => hl c (by simp [hc]))
    rw [List.cons_append, List.takeWhile_cons, List.dropWhile_cons]
    simp [ha, ih1, ih2]

/-- Trailing shape of `fmt` away from the near-zero guard: the output never ends in a
dot, and whenever it still contains a dot it does not end in a zero. -/
theorem fmt_last (x : ℚ) (h : 1 / 10 ^ 12 ≤ |x|) :
    (fmt x).toList.getLast? ≠ some '.'
      ∧ ('.' ∈ (fmt x).toList → (fmt x).toList.getLast? ≠ some '0') := by
  have h' : ¬ |x| < 1 / 10 ^ 12 := not_lt.mpr h
  obtain ⟨pre, D, hL, _, _, hlast, hpreDot⟩ := fmt_cases x h'
  by_cases hD : D = []
  · rw [hL, if_pos hD]
    constructor
    · intro hc
      exact hpreDot (getLastMem _ _ hc)
    · intro hdot
      exact absurd hdot hpreDot
  · rw [hL, if_neg hD]
    have hDrev : D.reverse ≠ [] := by simpa using hD
    obtain ⟨c, hc⟩ : ∃ c, D.reverse.getLast? = some c := by
      rcases hex : D.reverse.getLast? with _ | c
      · exfalso
        rw [List.getLast?_eq_none_iff] at hex
        exact hDrev hex
      · exact ⟨c, rfl⟩
    obtain ⟨hc0, hcF⟩ := hlast c hc
    have hgl : (pre ++ '.' :: D.reverse).getLast? = some c := by
      rw [List.getLast?_append]
      have h1 : ('.' :: D.reverse).getLast? = some c := by
        rw [show ('.' :: D.reverse) = ['.'] ++ D.reverse from rfl, List.getLast?_append, hc]
        rfl
      rw [h1]
      rfl
    rw [hgl]
    constructor
    · intro hcc
      have hcdot : c = '.' := by simpa using hcc
      subst hcdot
      obtain ⟨h1, _⟩ := mem_fixedDigits _ 6 '.' hcF
      exact absurd h1 (by decide)
    · intro _ hcc
      have : c = '0' := by simpa using hcc
      exact hc0 this

/-- Exact value of parsing a formatted number back: away from the near-zero guard,
`parseDec (fmt x)` is exactly the signed rounded value `±(jsRound6 |x|) / 10^6`. -/
theorem fmt_parse (x : ℚ) (h : 1 / 10 ^ 12 ≤ |x|) :
    parseDec (fmt x)
      = (if x < 0 then (-1 : ℚ) else 1) * ((jsRound6 |x| : ℚ) / 1000000) := by
  have h' : ¬ |x| < 1 / 10 ^ 12 := not_lt.mpr h
  obtain ⟨pre, D, hL, hpreEq, hdecEx, hlast, hpreDot⟩ := fmt_cases x h'
  obtain ⟨k, hdec⟩ := hdecEx
  set n := jsRound6 |x| with hn
  set q := n / 1000000 with hq
  have hL' : (fmt x).toList = pre ++ (if D = [] then [] else '.' :: D.reverse) := by
    rw [hL]
    by_cases hD : D = [] <;> simp [hD]
  set R := (if D = [] then ([] : List Char) else '.' :: D.reverse) with hR
  have hdigits : ∀ c ∈ natDigits q, c ≠ '.' := by
    intro c hc hcc
    subst hcc
    obtain ⟨h1, _⟩ := mem_natDigits q '.' hc
    exact absurd h1 (by decide)
  have htd : (natDigits q ++ R).takeWhile (fun c => c != '.') = natDigits q
      ∧ (natDigits q ++ R).dropWhile (fun c => c != '.') = R := by
    by_cases hD : D = []
    · constructor
      · rw [hR, if_pos hD, List.append_nil]
        exact (noDotTakeDrop (natDigits q) hdigits).1
      · rw [hR, if_pos hD, List.append_nil]
        exact (noDotTakeDrop (natDigits q) hdigits).2
    · rw [hR, if_neg hD]
      exact dotSplitTakeDrop (natDigits q) D.reverse hdigits
  obtain ⟨c0, t0, hnd⟩ : ∃ c0 t0, natDigits q = c0 :: t0 := by
    rcases hndq : natDigits q with _ | ⟨c0, t0⟩
    · exact absurd hndq (natDigits_ne_nil q)
    · exact ⟨c0, t0, rfl⟩
  have hc0 := mem_natDigits q c0 (by rw [hnd]; simp)
  have hc0m : ¬ (c0 = '-') := by
    intro hcc
    rw [hcc] at hc0
    exact absurd hc0.1 (by decide)
  have core : ((parseNatCh ((natDigits q ++ R).takeWhile (fun c => c != '.')) : ℚ)
      + (parseNatCh (((natDigits q ++ R).dropWhile (fun c => c != '.')).tail) : ℚ)
        / 10 ^ ((((natDigits q ++ R).dropWhile (fun c => c != '.')).tail).length))
      = (n : ℚ) / 1000000 := by
    rw [htd.1, htd.2, parseNatCh_natDigits]
    by_cases hD : D = []
    · have hF0 := parseNatCh_fixedDigits n 6
      rw [hdec, hD] at hF0
      simp only [List.reverse_nil, List.nil_append, parseNatCh_replicate_zero] at hF0
      have hmod : n % 1000000 = 0 := by
        rw [show (1000000:ℕ) = 10 ^ 6 by norm_num]
        omega
      have hnq : n = 1000000 * q := by
        have := Nat.div_add_mod n 1000000
        omega
      rw [hR, if_pos hD]
      simp only [List.tail_nil, List.length_nil, List.foldl_nil, parseNatCh, pow_zero]
      rw [eq_div_iff (by norm_num : (1000000:ℚ) ≠ 0)]
      push_cast [hnq]
      ring
    · rw [hR, if_neg hD]
      simp only [List.tail_cons]
      have hlen : D.reverse.length + k = 6 := by
        have := length_fixedDigits n 6
        rw [hdec] at this
        simpa using this
      have hF0 := parseNatCh_fixedDigits n 6
      rw [hdec, parseNatCh_append, parseNatCh_replicate_zero, List.length_replicate] at hF0
      have hm : parseNatCh D.reverse * 10 ^ k = n % 1000000 := by
        rw [show (1000000:ℕ) = 10 ^ 6 by norm_num]
        omega
      have hnq : n = 1000000 * q + parseNatCh D.reverse * 10 ^ k := by
        have := Nat.div_add_mod n 1000000
        omega
      have hpows : ((10:ℚ)) ^ D.reverse.length * 10 ^ k = 1000000 := by
        rw [← pow_add, hlen]
        norm_num
      rw [eq_div_iff (by norm_num : (1000000:ℚ) ≠ 0)]
      rw [show ((n:ℕ) : ℚ) = 1000000 * (q:ℚ) + (parseNatCh D.reverse : ℚ) * 10 ^ k by
        exact_mod_cast congrArg (fun z : ℕ => (z : ℚ)) hnq]
      rw [← hpows]
      have h10 : ((10:ℚ)) ^ D.reverse.length ≠ 0 := pow_ne_zero _ (by norm_num)
      field_simp
      ring
  by_cases hxneg : x < 0
  · have hpre' : pre = '-' :: natDigits q := by
      rw [hpreEq, if_pos hxneg]
      rfl
    have hLform : (fmt x).toList = '-' :: (natDigits q ++ R) := by
      rw [hL', hpre']
      rfl
    simp only [parseDec]
    rw [hLform]
    simp only [List.head?_cons, List.tail_cons]
    simp only [if_true]
    rw [core, if_pos hxneg]
  · have hpre' : pre = natDigits q := by
      rw [hpreEq, if_neg hxneg]
      rfl
    have hLform : (fmt x).toList = natDigits q ++ R := by
      rw [hL', hpre']
    have hhead : (natDigits q ++ R).head? = some c0 := by
      rw [hnd]
      rfl
    simp only [parseDec]
    rw [hLform, hhead]
    rw [if_neg (by simpa using hc0m), if_neg (by simpa using hc0m), core, if_neg hxneg]

/-- The rounding step of `toFixed(6)` moves a nonnegative value by at most half an ulp. -/
theorem jsRound6_approx (y : ℚ) (hy : 0 ≤ y) :
    |(jsRound6 y : ℚ) - y * 1000000| ≤ 1 / 2 := by
  unfold jsRound6
  have h0 : (0:ℤ) ≤ ⌊y * 1000000 + 1 / 2⌋ := by
    apply Int.floor_nonneg.mpr
    positivity
  have hcast : ((⌊y * 1000000 + 1 / 2⌋.toNat : ℕ) : ℚ)
      = ((⌊y * 1000000 + 1 / 2⌋ : ℤ) : ℚ) := by
    have h1 := Int.toNat_of_nonneg h0
    calc ((⌊y * 1000000 + 1 / 2⌋.toNat : ℕ) : ℚ)
        = (((⌊y * 1000000 + 1 / 2⌋.toNat : ℕ) : ℤ) : ℚ) := by norm_cast
      _ = ((⌊y * 1000000 + 1 / 2⌋ : ℤ) : ℚ) := by rw [h1]
  rw [hcast]
  have h1 := Int.floor_le (y * 1000000 + 1 / 2)
  have h2 := Int.lt_floor_add_one (y * 1000000 + 1 / 2)
  rw [abs_le]
  constructor
  · push_cast at h2 ⊢
    linarith
  · push_cast at h1 ⊢
    linarith

/-- C2: every value below the `1e-12` guard formats as the single character `"0"`. -/
theorem fmt_near_zero (x : ℚ) (h : |x| < 1 / 10 ^ 12) : fmt x = ("0") := by
  unfold fmt
  rw [if_pos h]

theorem fmt_near_zero_witness :
    |(1 / 10 ^ 13 : ℚ)| < 1 / 10 ^ 12 ∧ fmt (1 / 10 ^ 13) = ("0") :=
  ⟨by norm_num [abs_of_pos], fmt_near_zero _ (by norm_num [abs_of_pos])⟩

/-- C4: away from the near-zero guard, parsing the formatted string recovers the value
to within `1e-6` (the fixed-point rounding is the only loss, at most half an ulp). -/
theorem fmt_roundtrip (x : ℚ) (h : 1 / 10 ^ 12 ≤ |x|) :
    |parseDec (fmt x) - x| ≤ 1 / 10 ^ 6 := by
  rw [fmt_parse x h]
  have happrox := jsRound6_approx |x| (abs_nonneg x)
  rw [abs_le] at happrox ⊢
  by_cases hxneg : x < 0
  · rw [if_pos hxneg]
    rw [abs_of_neg hxneg] at happrox ⊢
    obtain ⟨ha, hb⟩ := happrox
    constructor <;> linarith
  · rw [if_neg hxneg]
    rw [abs_of_nonneg (not_lt.mp hxneg)] at happrox ⊢
    obtain ⟨ha, hb⟩ := happrox
    constructor <;> linarith

theorem fmt_roundtrip_witness :
    (1 / 10 ^ 12 : ℚ) ≤ |(3 / 2 : ℚ)| ∧ |parseDec (fmt (3 / 2)) - 3 / 2| ≤ 1 / 10 ^ 6 :=
  ⟨by norm_num [abs_of_pos], fmt_roundtrip (3 / 2) (by norm_num [abs_of_pos])⟩

theorem fmt_ten_eval : fmt 10 = ("10") := by
  have hlt : ¬ |(10:ℚ)| < 1 / 10 ^ 12 := by norm_num
  have hn : jsRound6 |(10:ℚ)| = 10000000 := by
    unfold jsRound6
    rw [show |(10:ℚ)| * 1000000 + 1 / 2 = 20000001 / 2 by norm_num]
    rw [show ⌊(20000001:ℚ) / 2⌋ = (10000000:ℤ) from by norm_num]
    rfl
  unfold fmt
  rw [if_neg hlt]
  unfold toFixed6
  rw [hn, if_neg (by norm_num : ¬((10:ℚ) < 0))]
  simp [natDigits, fixedDigits, digitChar, stripFixedZeros]

theorem fmt_tenth_eval : fmt (1 / 10) = ("0.1") := by
  have hlt : ¬ |(1 / 10 : ℚ)| < 1 / 10 ^ 12 := by norm_num [abs_of_pos]
  have hn : jsRound6 |(1 / 10 : ℚ)| = 100000 := by
    unfold jsRound6
    rw [show |(1 / 10 : ℚ)| * 1000000 + 1 / 2 = 200001 / 2 by norm_num [abs_of_pos]]
    rw [show ⌊(200001:ℚ) / 2⌋ = (100000:ℤ) from by norm_num]
    rfl
  unfold fmt
  rw [if_neg hlt]
  unfold toFixed6
  rw [hn, if_neg (by norm_num : ¬((1 / 10 : ℚ) < 0))]
  simp [natDigits, fixedDigits, digitChar, stripFixedZeros]

theorem fmt_threehalves_eval : fmt (3 / 2) = ("1.5") := by
  have hlt : ¬ |(3 / 2 : ℚ)| < 1 / 10 ^ 12 := by norm_num [abs_of_pos]
  have hn : jsRound6 |(3 / 2 : ℚ)| = 1500000 := by
    unfold jsRound6
    rw [show |(3 / 2 : ℚ)| * 1000000 + 1 / 2 = 3000001 / 2 by norm_num [abs_of_pos]]
    rw [show ⌊(3000001:ℚ) / 2⌋ = (1500000:ℤ) from by norm_num]
    rfl
  unfold fmt
  rw [if_neg hlt]
  unfold toFixed6
  rw [hn, if_neg (by norm_num : ¬((3 / 2 : ℚ) < 0))]
  simp [natDigits, fixedDigits, digitChar, stripFixedZeros]

theorem fmt_negtwo_eval : fmt (-2) = ("-2") := by
  have hlt : ¬ |(-2 : ℚ)| < 1 / 10 ^ 12 := by norm_num
  have hn : jsRound6 |(-2 : ℚ)| = 2000000 := by
    unfold jsRound6
    rw [show |(-2 : ℚ)| * 1000000 + 1 / 2 = 4000001 / 2 by norm_num]
    rw [show ⌊(4000001:ℚ) / 2⌋ = (2000000:ℤ) from by norm_num]
    rfl
  unfold fmt
  rw [if_neg hlt]
  unfold toFixed6
  rw [hn, if_pos (by norm_num : ((-2 : ℚ) < 0))]
  simp [natDigits, fixedDigits, digitChar, stripFixedZeros]

/-- C3 (amended): away from the near-zero guard the formatted string never ends in a
decimal point and — whenever it still contains a decimal point — never ends in a zero
(with all fractional digits stripped the integer part may itself end in `'0'`, as in
`fmt 10 = "10"`); the spec's examples hold. -/
theorem fmt_trailing (x : ℚ) (h : 1 / 10 ^ 12 ≤ |x|) :
    (fmt x).toList.getLast? ≠ some '.'
      ∧ ('.' ∈ (fmt x).toList → (fmt x).toList.getLast? ≠ some '0')
      ∧ fmt (1 / 10) = ("0.1") ∧ fmt (3 / 2) = ("1.5") ∧ fmt (-2) = ("-2") :=
  ⟨(fmt_last x h).1, (fmt_last x h).2, fmt_tenth_eval, fmt_threehalves_eval, fmt_negtwo_eval⟩

theorem fmt_trailing_witness :
    (1 / 10 ^ 12 : ℚ) ≤ |(3 / 2 : ℚ)| ∧ (fmt (3 / 2)).toList.getLast? ≠ some '.' :=
  ⟨by norm_num [abs_of_pos], (fmt_trailing (3 / 2) (by norm_num [abs_of_pos])).1⟩

/-- C3 counterexample: `fmt 10 = "10"` ends in the character `'0'`, so the claim that
`fmt x` never has trailing zeros for `|x| ≥ 1e-12` is false as stated. -/
theorem fmt_trailing_zero_counterexample :
    (1 / 10 ^ 12 : ℚ) ≤ |(10 : ℚ)| ∧ fmt 10 = ("10")
      ∧ (fmt 10).toList.getLast? = some '0' := by
  refine ⟨by norm_num, fmt_ten_eval, ?_⟩
  rw [fmt_ten_eval]
  rfl

/-- C10: a negative value whose magnitude rounds to zero at six decimals but clears the
`1e-12` guard renders as `"-0"`, while the corresponding positive value renders `"0"`. -/
theorem fmt_negative_zero :
    (1 / 10 ^ 12 : ℚ) ≤ |(-(1 / 10 ^ 8) : ℚ)|
      ∧ fmt (-(1 / 10 ^ 8)) = ("-0") ∧ fmt (1 / 10 ^ 8) = ("0") := by
  refine ⟨by norm_num [abs_of_neg], ?_, ?_⟩
  · have hlt : ¬ |(-(1 / 10 ^ 8) : ℚ)| < 1 / 10 ^ 12 := by norm_num [abs_of_neg]
    have hn : jsRound6 |(-(1 / 10 ^ 8) : ℚ)| = 0 := by
      unfold jsRound6
      rw [show |(-(1 / 10 ^ 8) : ℚ)| * 1000000 + 1 / 2 = 51 / 100 by norm_num [abs_of_neg]]
      rw [show ⌊(51:ℚ) / 100⌋ = (0:ℤ) from by norm_num]
      rfl
    unfold fmt
    rw [if_neg hlt]
    unfold toFixed6
    rw [hn, if_pos (by norm_num : ((-(1 / 10 ^ 8) : ℚ) < 0))]
    simp [natDigits, fixedDigits, digitChar, stripFixedZeros]
  · have hlt : ¬ |(1 / 10 ^ 8 : ℚ)| < 1 / 10 ^ 12 := by norm_num [abs_of_pos]
    have hn : jsRound6 |(1 / 10 ^ 8 : ℚ)| = 0 := by
      unfold jsRound6
      rw [show |(1 / 10 ^ 8 : ℚ)| * 1000000 + 1 / 2 = 51 / 100 by norm_num [abs_of_pos]]
      rw [show ⌊(51:ℚ) / 100⌋ = (0:ℤ) from by norm_num]
      rfl
    unfold fmt
    rw [if_neg hlt]
    unfold toFixed6
    rw [hn, if_neg (by norm_num : ¬((1 / 10 ^ 8 : ℚ) < 0))]
    simp [natDigits, fixedDigits, digitChar, stripFixedZeros]

theorem collectL_cons {β : Type} (sel : Node → List β) (a : Node) (l : List Node) :
    collectL sel (a :: l) = collectL sel [a] ++ collectL sel l := by
  cases a <;> simp [collectL]

theorem collectL_append {β : Type} (sel : Node → List β) (l₁ l₂ : List Node) :
    collectL sel (l₁ ++ l₂) = collectL sel l₁ ++ collectL sel l₂ := by
  induction l₁ with
  | nil => simp [collectL]
  | cons a l ih =>
    rw [List.cons_append, collectL_cons, ih, collectL_cons sel a l, List.append_assoc]

theorem collectL_cellList {β : Type} (sel : Node → List β)
    (htext : ∀ s, sel (.text s) = [])
    (htd : ∀ s, sel (.elem ("td") [] [.text s]) = []) :
    ∀ ss : List ℚ, collectL sel (ss.map (fun c => renderCell (fmt c))) = [] := by
  intro ss
  induction ss with
  | nil => simp [collectL]
  | cons a ss ih =>
    rw [List.map_cons, collectL_cons, ih]
    simp [collectL, renderCell, htext, htd]

theorem collectL_row {β : Type} (sel : Node → List β)
    (htext : ∀ s, sel (.text s) = [])
    (htd : ∀ s, sel (.elem ("td") [] [.text s]) = [])
    (hrow : ∀ (i : Nat) (m : Model), sel (renderRow i m) = [])
    (i : Nat) (m : Model) : collectL sel [renderRow i m] = [] := by
  have h1 := hrow i m
  simp only [renderRow] at h1 ⊢
  simp only [collectL, h1, List.nil_append, List.append_nil]
  rw [collectL_append, collectL_append, collectL_cellList sel htext htd]
  simp [collectL, renderCell, htext, htd]

theorem collectL_rowList {β : Type} (sel : Node → List β)
    (htext : ∀ s, sel (.text s) = [])
    (htd : ∀ s, sel (.elem ("td") [] [.text s]) = [])
    (hrow : ∀ (i : Nat) (m : Model), sel (renderRow i m) = []) :
    ∀ l : List (Nat × Model), collectL sel (l.map (fun p => renderRow p.1 p.2)) = [] := by
  intro l
  induction l with
  | nil => simp [collectL]
  | cons p l ih =>
    rw [List.map_cons, collectL_cons, collectL_row sel htext htd hrow, ih]
    rfl

theorem collectL_table {β : Type} (sel : Node → List β)
    (htext : ∀ s, sel (.text s) = [])
    (htd : ∀ s, sel (.elem ("td") [] [.text s]) = [])
    (hrow : ∀ (i : Nat) (m : Model), sel (renderRow i m) = [])
    (hhr : collectL sel [headerRow] = [])
    (hthd : ∀ cs : List Node, sel (.elem ("thead") [(("class"), ("rep-thead"))] cs) = [])
    (htb : ∀ cs : List Node, sel (.elem ("tbody") [] cs) = [])
    (ms : List Model) :
    collectL sel [renderTable ms] = sel (renderTable ms) := by
  simp only [renderTable]
  simp only [collectL, hthd, htb, List.nil_append, List.append_nil]
  rw [collectL_rowList sel htext htd hrow]
  simpa [collectL] using hhr

theorem collectL_ops {β : Type} (sel : Node → List β) (g : String × OperationInfo → β)
    (hop : ∀ op info, collectL sel (renderOperation op info) = [g (op, info)]) :
    ∀ l : List (String × OperationInfo),
      collectL sel ((l.map (fun p => renderOperation p.1 p.2)).flatten) = l.map g := by
  intro l
  induction l with
  | nil => simp [collectL]
  | cons p l ih =>
    rw [List.map_cons, List.flatten_cons, collectL_append, hop p.1 p.2, ih, List.map_cons]
    rfl

theorem collectL_report {β : Type} (sel : Node → List β) (g : String × OperationInfo → β)
    (hop : ∀ op info, collectL sel (renderOperation op info) = [g (op, info)])
    (hbtn : collectL sel [.elem ("button") [] [.text ("Download PDF")]] = [])
    (hdiv : ∀ cs : List Node, sel (.elem ("div") [(("class"), ("rep-body"))] cs) = [])
    (hh1 : collectL sel
      [.elem ("h1") [(("class"), ("rep-title"))] [.text ("Отчёт регрессионного анализа")]] = [])
    (hintro : collectL sel introSections = [])
    (d : List (String × OperationInfo)) :
    collectL sel (regressionReport d) = d.map g := by
  simp only [regressionReport, renderReport]
  rw [collectL_cons, hbtn]
  simp only [collectL, hdiv, List.nil_append, List.append_nil]
  rw [collectL_append, collectL_cons]
  rw [show collectL sel
      [Node.elem ("h1") [(("class"), ("rep-title"))] [.text ("Отчёт регрессионного анализа")]]
      = [] from hh1]
  rw [hintro, collectL_ops sel g hop d]
  simp

theorem capSel_text (s : String) : capSel (.text s) = [] := rfl

theorem capSel_td (s : String) : capSel (.elem ("td") [] [.text s]) = [] := by
  simp [capSel]

theorem capSel_row (i : Nat) (m : Model) : capSel (renderRow i m) = [] := by
  by_cases h : i % 2 = 1 <;> simp [renderRow, capSel, h]

theorem tabSel_text (s : String) : tabSel (.text s) = [] := rfl

theorem tabSel_td (s : String) : tabSel (.elem ("td") [] [.text s]) = [] := by
  simp [tabSel]

theorem tabSel_row (i : Nat) (m : Model) : tabSel (renderRow i m) = [] := by
  simp [renderRow, tabSel]

theorem imgSel_text (s : String) : imgSel (.text s) = [] := rfl

theorem imgSel_td (s : String) : imgSel (.elem ("td") [] [.text s]) = [] := by
  simp [imgSel]

theorem imgSel_row (i : Nat) (m : Model) : imgSel (renderRow i m) = [] := by
  simp [renderRow, imgSel]

theorem capSel_operation (op : String) (info : OperationInfo) :
    collectL capSel (renderOperation op info) = [("Операция: ") ++ op] := by
  simp only [renderOperation, renderTable, headerRow, collectL]
  rw [collectL_rowList capSel capSel_text capSel_td capSel_row]
  simp [capSel, immText]

theorem tabSel_operation (op : String) (info : OperationInfo) :
    collectL tabSel (renderOperation op info) = [renderTable info.models] := by
  simp only [renderOperation, renderTable, headerRow, collectL]
  rw [collectL_rowList tabSel tabSel_text tabSel_td tabSel_row]
  simp [tabSel]

theorem imgSel_operation (op : String) (info : OperationInfo) :
    collectL imgSel (renderOperation op info) = [("./assets/") ++ info.image] := by
  simp only [renderOperation, renderTable, headerRow, collectL]
  rw [collectL_rowList imgSel imgSel_text imgSel_td imgSel_row]
  simp [imgSel]

theorem capSel_intro : collectL capSel introSections = [] := by
  simp [introSections, collectL, capSel]

theorem tabSel_intro : collectL tabSel introSections = [] := by
  simp [introSections, collectL, tabSel]

theorem imgSel_intro : collectL imgSel introSections = [] := by
  simp [introSections, collectL, imgSel]

/-- C7: the rendered output lists the operations in the order of the mapping — the
captions, the tables and the chart-image sources each appear in exactly the key order
of the loaded data. -/
theorem report_order (d : ReportData) :
    collectL capSel (regressionReport d) = d.map (fun p => ("Операция: ") ++ p.1)
      ∧ collectL tabSel (regressionReport d) = d.map (fun p => renderTable p.2.models)
      ∧ collectL imgSel (regressionReport d) = d.map (fun p => ("./assets/") ++ p.2.image) := by
  refine ⟨?_, ?_, ?_⟩
  · exact collectL_report capSel (fun p => ("Операция: ") ++ p.1)
      (fun op info => capSel_operation op info)
      (by simp [collectL, capSel]) (by simp [capSel])
      (by simp [collectL, capSel]) capSel_intro d
  · exact collectL_report tabSel (fun p => renderTable p.2.models)
      (fun op info => tabSel_operation op info)
      (by simp [collectL, tabSel]) (by simp [tabSel])
      (by simp [collectL, tabSel]) tabSel_intro d
  · exact collectL_report imgSel (fun p => ("./assets/") ++ p.2.image)
      (fun op info => imgSel_operation op info)
      (by simp [collectL, imgSel]) (by simp [imgSel])
      (by simp [collectL, imgSel]) imgSel_intro d

theorem countTagList_cons (t : String) (a : Node) (l : List Node) :
    countTagList t (a :: l) = countTagList t [a] + countTagList t l := by
  cases a <;> simp [countTagList]

theorem countTagList_append (t : String) (l₁ l₂ : List Node) :
    countTagList t (l₁ ++ l₂) = countTagList t l₁ + countTagList t l₂ := by
  induction l₁ with
  | nil => simp [countTagList]
  | cons a l ih =>
    rw [List.cons_append, countTagList_cons, ih, countTagList_cons t a l]
    omega

theorem countTag_cellList : ∀ ss : List ℚ,
    countTagList ("table") (ss.map (fun c => renderCell (fmt c))) = 0 := by
  intro ss
  induction ss with
  | nil => simp [countTagList]
  | cons a ss ih =>
    rw [List.map_cons, countTagList_cons, ih]
    simp [countTagList, renderCell]

theorem countTag_row (i : Nat) (m : Model) :
    countTagList ("table") [renderRow i m] = 0 := by
  simp only [renderRow, countTagList]
  rw [countTagList_append, countTagList_append, countTag_cellList]
  simp [countTagList, renderCell]

theorem countTag_rowList : ∀ l : List (Nat × Model),
    countTagList ("table") (l.map (fun p => renderRow p.1 p.2)) = 0 := by
  intro l
  induction l with
  | nil => simp [countTagList]
  | cons p l ih =>
    rw [List.map_cons, countTagList_cons, countTag_row, ih]

theorem countTag_operation (op : String) (info : OperationInfo) :
    countTagList ("table") (renderOperation op info) = 1 := by
  simp only [renderOperation, renderTable, headerRow, countTagList]
  rw [countTag_rowList]
  simp [countTagList]

theorem countTag_intro : countTagList ("table") introSections = 0 := by
  simp [introSections, countTagList]

theorem countTag_ops : ∀ l : List (String × OperationInfo),
    countTagList ("table") ((l.map (fun p => renderOperation p.1 p.2)).flatten) = l.length := by
  intro l
  induction l with
  | nil => simp [countTagList]
  | cons p l ih =>
    rw [List.map_cons, List.flatten_cons, countTagList_append, countTag_operation, ih,
      List.length_cons]
    omega

/-- C6 (amended): the rendered output has exactly one table per operation; each table
has one body row per model; each body row has one cell per coefficient entry plus the
six fixed columns (degree, variance, standard deviation, code, explanation, comment);
and the even-row class sits exactly on the rows with odd zero-based index. -/
theorem report_structure :
    (∀ d : ReportData, countTagList ("table") (regressionReport d) = d.length)
      ∧ (∀ ms : List Model, (tbodyRows (renderTable ms)).length = ms.length)
      ∧ (∀ (idx : Nat) (m : Model), ((renderRow idx m).children).length = m.coef.length + 6)
      ∧ (∀ (idx : Nat) (m : Model),
          hasCls ("rep-row-even") (renderRow idx m) = true ↔ idx % 2 = 1) := by
  refine ⟨?_, ?_, ?_, ?_⟩
  · intro d
    simp only [regressionReport, renderReport, countTagList]
    rw [countTagList_append, countTagList_cons, countTag_ops, countTag_intro]
    simp [countTagList]
  · intro ms
    simp [renderTable, tbodyRows, List.enum_length]
  · intro idx m
    simp [renderRow, Node.children, renderCell]
  · intro idx m
    by_cases h : idx % 2 = 1 <;> simp [renderRow, hasCls, h]

/-- C6 counterexample: a model with three coefficient entries renders a body row with
nine cells, not `3 + 5 = 8` — the claim's count omits the degree column. -/
theorem report_columns_counterexample :
    ((renderRow 0 (Model.mk 2 [1, 2, 3] 1 1 ("++") none)).children).length
      ≠ (Model.mk 2 [1, 2, 3] 1 1 ("++") none).coef.length + 5 := by
  simp [renderRow, Node.children, renderCell]
